import Mathlib

/-!
Verification of the w4-raycaster-rs core (`src/main.rs`).

The source is a Wolfenstein-style raycaster written against 32-bit IEEE
floats.  The embedding idealizes `f32` arithmetic as exact rational
arithmetic over `ℚ`:

* `core::f32::consts::PI` is taken at its exact `f32` value
  `13176795 / 2^22`; the source's `TAU` and `FRAC_PI_2` are exactly
  `2 * PI` and `PI / 2` at `f32` precision, so they are defined that way;
* decimal literals (`0.045`, `2.7`, `100.0`, ...) are taken at face value;
* `x as usize` on an `f32` truncates toward zero and saturates
  (negative values to `0`, large values to `usize::MAX = 2^32 - 1` on
  wasm32), `x as i32` likewise saturates at the `i32` range;
* `u16` shift-left overflow follows Rust's release-mode (wrapping)
  semantics: the shift amount is masked to the bit width, i.e. taken
  mod 16;
* `%` on floats is Rust's remainder (truncated division, sign of the
  dividend);
* the hardware square-root intrinsic is modelled by `Rat.sqrt`
  (exact on perfect squares, nonnegative and total like the intrinsic);
* division by zero yields `0`, Lean's total-division sentinel, standing
  in for the non-trapping IEEE behaviour (`±inf`/NaN): in both worlds the
  operation returns a value instead of faulting.
-/

/-- `core::f32::consts::PI`, exactly (`0x40490FDB`). -/
def PI : ℚ := 13176795 / 4194304

/-- `core::f32::consts::TAU`; at `f32` precision this is exactly `2 * PI`. -/
def TAU : ℚ := 2 * PI

/-- `core::f32::consts::FRAC_PI_2`; at `f32` precision exactly `PI / 2`. -/
def FRAC_PI_2 : ℚ := PI / 2

/-- How far the player moves per update. -/
def STEP_SIZE : ℚ := 0.045

def FIVE_PI_SQUARED : ℚ := 5 * (PI * PI)

/-- The player's field of view. -/
def FOV : ℚ := PI / 2.7

/-- Half the player's field of view. -/
def HALF_FOV : ℚ := FOV * 0.5

/-- The angle between each ray used in raycasting. -/
def ANGLE_STEP : ℚ := FOV / 160

/-- The height, in pixels, of a wall one unit away. -/
def WALL_HEIGHT : ℚ := 100

/-- `floorf32` intrinsic. -/
def floorf (x : ℚ) : ℚ := (⌊x⌋ : ℚ)

/-- `ceilf32` intrinsic. -/
def ceilf (x : ℚ) : ℚ := (⌈x⌉ : ℚ)

/-- `fabsf32` intrinsic. -/
def fabsf (x : ℚ) : ℚ := |x|

/-- Truncation toward zero, the rounding used by Rust's float-to-int casts
and by float `%`. -/
def truncQ (x : ℚ) : ℤ := if x < 0 then ⌈x⌉ else ⌊x⌋

/-- Rust's `%` on floats: remainder of truncated division. -/
def remf (a b : ℚ) : ℚ := a - (truncQ (a / b) : ℚ) * b

/-- `sqrtf32` intrinsic, modelled by the rational square root. -/
def sqrtf (x : ℚ) : ℚ := Rat.sqrt x

/-- `x as usize` on an `f32` (wasm32): truncate toward zero, saturate to
`[0, 2^32 - 1]`. -/
def f32ToUsize (x : ℚ) : ℕ :=
  if x < 0 then 0 else min (⌊x⌋).toNat (2 ^ 32 - 1)

/-- `x as i32` on an `f32`: truncate toward zero, saturate to the `i32`
range. -/
def f32ToI32 (x : ℚ) : ℤ :=
  max (-(2 ^ 31)) (min (truncQ x) (2 ^ 31 - 1))

/-- The 8 × 16 bit map, one `u16` per row. -/
def MAP : List ℕ :=
  [0b1111111111111111,
   0b1000001010000101,
   0b1011100000110101,
   0b1000111010010001,
   0b1010001011110111,
   0b1011101001100001,
   0b1000100000001101,
   0b1111111111111111]

/-- Check if the map contains a wall at a point.  `line & (0b1 << x as usize)`
on a `u16` masks the shift amount to the bit width (mod 16) in release
builds. -/
def point_in_wall (x y : ℚ) : Bool :=
  match MAP[f32ToUsize y]? with
  | some line => (line &&& (1 <<< (f32ToUsize x % 16))) != 0
  | none => true

/-- The closure `sinf_imp` inside `sinf`: Bhaskara I's rational
approximation of sine on `[0, π]`. -/
def sinf_imp (x : ℚ) : ℚ :=
  (16 * x * (PI - x)) / (FIVE_PI_SQUARED - 4 * x * (PI - x))

def sinf (x : ℚ) : ℚ :=
  let y := x / TAU
  let z := y - floorf y
  let x2 := z * TAU
  if x2 > PI then -(sinf_imp (x2 - PI)) else sinf_imp x2

def cosf (x : ℚ) : ℚ := sinf (x + FRAC_PI_2)

def tanf (x : ℚ) : ℚ := sinf x / cosf x

/-- Get the distance from (0, 0) to (a, b). -/
def distance (a b : ℚ) : ℚ := sqrtf (a * a + b * b)

structure State where
  player_x : ℚ
  player_y : ℚ
  player_angle : ℚ

/-- The position the `update` body reaches before the collision check:
`up` adds `(cos θ, -sin θ) * STEP_SIZE`, `down` subtracts it. -/
def State.tentative (s : State) (up down : Bool) : ℚ × ℚ :=
  let x1 := if up then s.player_x + cosf s.player_angle * STEP_SIZE else s.player_x
  let y1 := if up then s.player_y + -(sinf s.player_angle) * STEP_SIZE else s.player_y
  let x2 := if down then x1 - cosf s.player_angle * STEP_SIZE else x1
  let y2 := if down then y1 - -(sinf s.player_angle) * STEP_SIZE else y1
  (x2, y2)

/-- The heading after the turn flags: `right` subtracts `STEP_SIZE`,
then `left` adds it. -/
def State.newAngle (s : State) (left right : Bool) : ℚ :=
  let a1 := if right then s.player_angle - STEP_SIZE else s.player_angle
  if left then a1 + STEP_SIZE else a1

/-- Move the character (`State::update`): apply the tentative move and the
turn, then revert both position coordinates if the result is in a wall. -/
def State.update (s : State) (up down left right : Bool) : State :=
  let t := s.tentative up down
  let pa := s.newAngle left right
  if point_in_wall t.1 t.2 then
    { player_x := s.player_x, player_y := s.player_y, player_angle := pa }
  else
    { player_x := t.1, player_y := t.2, player_angle := pa }

/-- Whether the angle is "facing up" on the map:
`fabsf(floorf(angle / PI) % 2.0) != 0.0`. -/
def hFacingUp (angle : ℚ) : Bool :=
  fabsf (remf (floorf (angle / PI)) 2) != 0

/-- First grid intersection of the horizontal cast (`first_x`, `first_y`). -/
def State.hFirst (s : State) (angle : ℚ) : ℚ × ℚ :=
  let first_y :=
    if hFacingUp angle then ceilf s.player_y - s.player_y
    else floorf s.player_y - s.player_y
  (-first_y / tanf angle, first_y)

/-- Per-step ray extension of the horizontal cast (`dx`, `dy`). -/
def hDelta (angle : ℚ) : ℚ × ℚ :=
  let dy : ℚ := if hFacingUp angle then 1 else -1
  (-dy / tanf angle, dy)

/-- The wall test applied at each horizontal-cast step: the relative offset
is translated to absolute map coordinates (stepping down samples the cell
above, hence the `- 1`). -/
def State.hWallAt (s : State) (angle : ℚ) (next : ℚ × ℚ) : Bool :=
  point_in_wall (next.1 + s.player_x)
    (if hFacingUp angle then next.2 + s.player_y else next.2 + s.player_y - 1)

/-- The `for _ in 0..n` marching loop shared by both casts: test the wall,
break on a hit, otherwise advance by the per-step delta. -/
def marchLoop (wall : ℚ × ℚ → Bool) (d : ℚ × ℚ) : ℕ → ℚ × ℚ → ℚ × ℚ
  | 0, next => next
  | fuel + 1, next =>
    if wall next then next
    else marchLoop wall d fuel (next.1 + d.1, next.2 + d.2)

/-- Returns the nearest wall the ray intersects on a horizontal grid line
(`State::horizontal_intersection`). -/
def State.horizontal_intersection (s : State) (angle : ℚ) : ℚ :=
  let last := marchLoop (s.hWallAt angle) (hDelta angle) 256 (s.hFirst angle)
  distance last.1 last.2

/-- Whether the angle is "facing right" on the map:
`fabsf(floorf((angle - FRAC_PI_2) / PI) % 2.0) != 0.0`. -/
def vFacingRight (angle : ℚ) : Bool :=
  fabsf (remf (floorf ((angle - FRAC_PI_2) / PI)) 2) != 0

/-- First grid intersection of the vertical cast (`first_x`, `first_y`). -/
def State.vFirst (s : State) (angle : ℚ) : ℚ × ℚ :=
  let first_x :=
    if vFacingRight angle then ceilf s.player_x - s.player_x
    else floorf s.player_x - s.player_x
  (first_x, -(tanf angle) * first_x)

/-- Per-step ray extension of the vertical cast (`dx`, `dy`). -/
def vDelta (angle : ℚ) : ℚ × ℚ :=
  let dx : ℚ := if vFacingRight angle then 1 else -1
  (dx, dx * -(tanf angle))

/-- The wall test applied at each vertical-cast step. -/
def State.vWallAt (s : State) (angle : ℚ) (next : ℚ × ℚ) : Bool :=
  point_in_wall
    (if vFacingRight angle then next.1 + s.player_x else next.1 + s.player_x - 1)
    (next.2 + s.player_y)

/-- Returns the nearest wall the ray intersects on a vertical grid line
(`State::vertical_intersection`). -/
def State.vertical_intersection (s : State) (angle : ℚ) : ℚ :=
  let last := marchLoop (s.vWallAt angle) (vDelta angle) 256 (s.vFirst angle)
  distance last.1 last.2

/-- The ray angle used for screen column `idx`:
`starting_angle - idx as f32 * ANGLE_STEP`. -/
def State.rayAngle (s : State) (idx : ℕ) : ℚ :=
  s.player_angle + HALF_FOV - (idx : ℚ) * ANGLE_STEP

/-- The wall sample the `get_view` loop writes at column `idx`. -/
def State.wallSample (s : State) (idx : ℕ) : ℤ × Bool :=
  let angle := s.rayAngle idx
  let h_dist := s.horizontal_intersection angle
  let v_dist := s.vertical_intersection angle
  let mds := if h_dist < v_dist then (h_dist, false) else (v_dist, true)
  (f32ToI32 (WALL_HEIGHT / (mds.1 * cosf (angle - s.player_angle))), mds.2)

/-- Returns 160 wall heights and their color from the player's perspective
(`State::get_view`). -/
def State.get_view (s : State) : List (ℤ × Bool) :=
  (List.range 160).map s.wallSample

/-- Spec-side Bhaskara I formula, written as the spec words it:
`16·r·(π−r) / (5π² − 4·r·(π−r))`. -/
def bhaskara (r : ℚ) : ℚ :=
  (16 * r * (PI - r)) / (5 * PI ^ 2 - 4 * r * (PI - r))

/-- Spec-side view sample, written as the spec words it: ray angle
`heading + halfFOV − idx·angleStep`, the minimum of the two cast distances,
the shadow flag set according to whether the vertical cast won, and the
height `wallHeightConstant / (minimumDistance · cos(angle − heading))`
truncated to an integer. -/
def specSample (s : State) (idx : ℕ) : ℤ × Bool :=
  let angle := s.player_angle + HALF_FOV - (idx : ℚ) * ANGLE_STEP
  let h_dist := s.horizontal_intersection angle
  let v_dist := s.vertical_intersection angle
  let min_dist := min h_dist v_dist
  (f32ToI32 (WALL_HEIGHT / (min_dist * cosf (angle - s.player_angle))),
    decide (v_dist ≤ h_dist))

/-- The relative offset reached after `k` whole marching steps of size `d`
from `start`. -/
def stepPoint (start d : ℚ × ℚ) (k : ℕ) : ℚ × ℚ :=
  (start.1 + (k : ℚ) * d.1, start.2 + (k : ℚ) * d.2)

/-- A concrete pose whose column-0 ray leaves at exactly `-π/2` and meets
walls at equal horizontal and vertical distances (a tie). -/
def tieState : State := State.mk (1/2) (1/2) (-FRAC_PI_2 - HALF_FOV)

/-- Every bit position below 16 is set in the solid row `0xFFFF`. -/
lemma row0_bit_set (k : ℕ) (hk : k < 16) : ((65535 &&& (1 <<< k)) != 0) = true := by
  interval_cases k <;> decide

/-- Claim C10: updating with all four input flags false leaves the pose
exactly unchanged, even when it already lies inside a wall. -/
theorem update_no_buttons_identity (s : State) :
    s.update false false false false = s := by
  cases s
  simp [State.update, State.tentative, State.newAngle]

/-- Claim C1: if the player's position is not inside a solid map cell, the
pose produced by `update` is not inside a solid map cell either, for every
combination of the four inputs. -/
theorem update_keeps_player_out_of_walls (s : State) (u d l r : Bool)
    (h : point_in_wall s.player_x s.player_y = false) :
    point_in_wall (s.update u d l r).player_x (s.update u d l r).player_y = false := by
  by_cases hw : point_in_wall (s.tentative u d).1 (s.tentative u d).2 = true
  · simp [State.update, hw, h]
  · rw [Bool.not_eq_true] at hw
    simp [State.update, hw]

theorem update_keeps_player_out_of_walls_witness :
    point_in_wall (3/2) (3/2) = false ∧
      point_in_wall ((State.mk (3/2) (3/2) 0).update true false false true).player_x
        ((State.mk (3/2) (3/2) 0).update true false false true).player_y = false := by
  have h : point_in_wall (3/2) (3/2) = false := by
    norm_num [point_in_wall, f32ToUsize, MAP, Int.toNat_ofNat]
    decide
  exact ⟨h, update_keeps_player_out_of_walls (State.mk (3/2) (3/2) 0) true false false true h⟩

/-- Claim C2: when the tentative position lies inside a wall, `update`
reverts both position coordinates exactly to their pre-update values, and
in all cases the heading change requested by the turn flags is applied. -/
theorem update_collision_reverts_position_not_heading (s : State) (u d l r : Bool) :
    (point_in_wall (s.tentative u d).1 (s.tentative u d).2 = true →
      (s.update u d l r).player_x = s.player_x ∧
        (s.update u d l r).player_y = s.player_y) ∧
    (s.update u d l r).player_angle = s.newAngle l r := by
  refine ⟨fun hw => ?_, ?_⟩
  · simp [State.update, hw]
  · by_cases hw : point_in_wall (s.tentative u d).1 (s.tentative u d).2 = true
    · simp [State.update, hw]
    · rw [Bool.not_eq_true] at hw
      simp [State.update, hw]

theorem update_collision_reverts_position_not_heading_witness :
    point_in_wall ((State.mk (1/2) (1/2) 0).tentative false false).1
        ((State.mk (1/2) (1/2) 0).tentative false false).2 = true ∧
      (((State.mk (1/2) (1/2) 0).update false false true false).player_x =
          (State.mk (1/2) (1/2) 0).player_x ∧
        ((State.mk (1/2) (1/2) 0).update false false true false).player_y =
          (State.mk (1/2) (1/2) 0).player_y) ∧
      ((State.mk (1/2) (1/2) 0).update false false true false).player_angle =
        (State.mk (1/2) (1/2) 0).newAngle true false := by
  have hw : point_in_wall ((State.mk (1/2) (1/2) 0).tentative false false).1
      ((State.mk (1/2) (1/2) 0).tentative false false).2 = true := by
    simp only [State.tentative]
    norm_num [point_in_wall, f32ToUsize, MAP, Int.toNat_ofNat]
  have h := update_collision_reverts_position_not_heading
    (State.mk (1/2) (1/2) 0) false false true false
  exact ⟨hw, h.1 hw, h.2⟩

/-- Claim C4: every coordinate pair whose `y` lies outside the declared
8 rows — every negative `y` included — tests as a wall. -/
theorem point_in_wall_out_of_rows (x y : ℚ) (h : y < 0 ∨ 8 ≤ y) :
    point_in_wall x y = true := by
  rcases h with h | h
  · have hy : f32ToUsize y = 0 := by simp [f32ToUsize, h]
    have hx : f32ToUsize x % 16 < 16 := Nat.mod_lt _ (by norm_num)
    simp only [point_in_wall, hy]
    simpa [MAP] using row0_bit_set _ hx
  · have hy : 8 ≤ f32ToUsize y := by
      have hfl : (8 : ℤ) ≤ ⌊y⌋ := by
        rw [Int.le_floor]
        exact_mod_cast h
      have : ¬ y < 0 := not_lt.mpr (le_trans (by norm_num) h)
      simp only [f32ToUsize, if_neg this]
      omega
    have hnone : MAP[f32ToUsize y]? = none := by
      apply List.getElem?_eq_none
      simpa [MAP] using hy
    simp [point_in_wall, hnone]

theorem point_in_wall_out_of_rows_witness :
    ((-1 : ℚ) < 0 ∨ (8 : ℚ) ≤ -1) ∧ point_in_wall 5 (-1) = true :=
  ⟨Or.inl (by norm_num), point_in_wall_out_of_rows 5 (-1) (Or.inl (by norm_num))⟩

/-- Claim C3 counterexample: column 17 is at or beyond the 16-bit row
width, yet the wall test reports no wall at `(17, 1)`. -/
theorem point_in_wall_col17_not_solid : point_in_wall 17 1 = false := by
  norm_num [point_in_wall, f32ToUsize, MAP, Int.toNat_ofNat]
  decide

/-- Claim C3, amended: a column index at or beyond the fixed 16-bit row
width is reduced modulo 16 by the wrapping shift, so the wall test behaves
exactly like the test at column `index mod 16`; it does not uniformly
report a wall. -/
theorem point_in_wall_column_mod16 (x y : ℚ) :
    point_in_wall x y = point_in_wall ((f32ToUsize x % 16 : ℕ) : ℚ) y := by
  have hsmall : ∀ k : ℕ, k < 16 → f32ToUsize (k : ℚ) = k := by
    intro k hklt
    have hnn : ¬ ((k : ℚ) < 0) := not_lt.mpr (by exact_mod_cast Nat.zero_le k)
    simp only [f32ToUsize, if_neg hnn, Int.floor_natCast, Int.toNat_natCast]
    omega
  have hk : f32ToUsize ((f32ToUsize x % 16 : ℕ) : ℚ) = f32ToUsize x % 16 :=
    hsmall _ (Nat.mod_lt _ (by norm_num))
  have hmm : f32ToUsize x % 16 % 16 = f32ToUsize x % 16 := by omega
  simp only [point_in_wall, hk, hmm]

lemma distance_nonneg (a b : ℚ) : 0 ≤ distance a b := Rat.sqrt_nonneg _

lemma TAU_pos : (0 : ℚ) < TAU := by norm_num [TAU, PI]

lemma sinf_imp_eq_bhaskara (r : ℚ) : sinf_imp r = bhaskara r := by
  unfold sinf_imp bhaskara FIVE_PI_SQUARED
  congr 1
  ring

/-- Claim C5: `sinf` range-reduces its argument into `[0, 2π)` as
`x - floor(x / 2π) * 2π` and applies the Bhaskara I formula on the reduced
value, mirroring sign above `π`. -/
theorem sinf_range_reduction_bhaskara (x : ℚ) :
    0 ≤ x - floorf (x / TAU) * TAU ∧ x - floorf (x / TAU) * TAU < TAU ∧
      sinf x =
        (if x - floorf (x / TAU) * TAU ≤ PI
          then bhaskara (x - floorf (x / TAU) * TAU)
          else -(bhaskara (x - floorf (x / TAU) * TAU - PI))) := by
  have htau : (0 : ℚ) < TAU := TAU_pos
  have hfr : x - floorf (x / TAU) * TAU = Int.fract (x / TAU) * TAU := by
    unfold floorf
    rw [Int.fract, sub_mul, div_mul_cancel₀ _ (ne_of_gt htau)]
  refine ⟨?_, ?_, ?_⟩
  · rw [hfr]
    exact mul_nonneg (Int.fract_nonneg _) htau.le
  · rw [hfr]
    calc Int.fract (x / TAU) * TAU < 1 * TAU :=
          mul_lt_mul_of_pos_right (Int.fract_lt_one _) htau
      _ = TAU := one_mul TAU
  · have hx2 : (x / TAU - floorf (x / TAU)) * TAU = x - floorf (x / TAU) * TAU := by
      unfold floorf
      rw [sub_mul, div_mul_cancel₀ _ (ne_of_gt htau)]
    simp only [sinf]
    rw [hx2]
    rcases le_or_lt (x - floorf (x / TAU) * TAU) PI with hle | hgt
    · rw [if_neg (not_lt.mpr hle), if_pos hle, sinf_imp_eq_bhaskara]
    · rw [if_pos hgt, if_neg (not_le.mpr hgt), sinf_imp_eq_bhaskara]

/-- Claim C8: at an angle whose cosine is exactly zero, the tangent
degenerates to the division-by-zero sentinel `0` and both casts still
return a (nonnegative) distance instead of faulting. -/
theorem degenerate_angle_casts_total (s : State) (angle : ℚ)
    (h : cosf angle = 0) :
    tanf angle = 0 ∧ 0 ≤ s.horizontal_intersection angle ∧
      0 ≤ s.vertical_intersection angle := by
  refine ⟨?_, ?_, ?_⟩
  · rw [tanf, h, div_zero]
  · simp only [State.horizontal_intersection]
    exact distance_nonneg _ _
  · simp only [State.vertical_intersection]
    exact distance_nonneg _ _

lemma cosf_neg_frac_pi_2 : cosf (-FRAC_PI_2) = 0 := by
  norm_num [cosf, sinf, sinf_imp, floorf, FRAC_PI_2, TAU, PI, FIVE_PI_SQUARED]

theorem degenerate_angle_casts_total_witness :
    cosf (-FRAC_PI_2) = 0 ∧
      (tanf (-FRAC_PI_2) = 0 ∧
        0 ≤ (State.mk (3/2) (3/2) 0).horizontal_intersection (-FRAC_PI_2) ∧
        0 ≤ (State.mk (3/2) (3/2) 0).vertical_intersection (-FRAC_PI_2)) :=
  ⟨cosf_neg_frac_pi_2,
    degenerate_angle_casts_total (State.mk (3/2) (3/2) 0) (-FRAC_PI_2) cosf_neg_frac_pi_2⟩

lemma wallSample_eq_specSample (s : State) (idx : ℕ) :
    s.wallSample idx = specSample s idx := by
  simp only [State.wallSample, specSample, State.rayAngle]
  rcases lt_or_le (s.horizontal_intersection (s.player_angle + HALF_FOV - (idx : ℚ) * ANGLE_STEP))
      (s.vertical_intersection (s.player_angle + HALF_FOV - (idx : ℚ) * ANGLE_STEP)) with hlt | hle
  · rw [if_pos hlt, min_eq_left hlt.le, decide_eq_false (not_le.mpr hlt)]
  · rw [if_neg (not_lt.mpr hle), min_eq_right hle, decide_eq_true hle]

lemma get_view_getElem? (s : State) (idx : Fin 160) :
    (s.get_view)[(idx : ℕ)]? = some (s.wallSample idx) := by
  simp [State.get_view, List.getElem?_map, List.getElem?_range, idx.2]

/-- Claim C6: the view is exactly 160 samples, and sample `idx` is taken at
ray angle `heading + halfFOV − idx·angleStep`, uses the minimum of the two
cast distances, flags shadow when the vertical cast won, and converts the
minimum to a truncated height `wallHeight / (dist · cos(angle − heading))`. -/
theorem get_view_projects_each_column (s : State) :
    (s.get_view).length = 160 ∧
      ∀ idx : Fin 160, (s.get_view)[(idx : ℕ)]? = some (specSample s idx) := by
  refine ⟨by simp [State.get_view], fun idx => ?_⟩
  rw [get_view_getElem?, wallSample_eq_specSample]

/-- Claim C9: whenever the horizontal-cast distance is not strictly smaller
than the vertical-cast distance (ties included), the vertical distance is
the one converted to the height and the shadow flag is true; the shadow
flag is false exactly when the horizontal distance is strictly smaller. -/
theorem shadow_flag_vertical_wins_ties (s : State) (idx : Fin 160) :
    (¬ s.horizontal_intersection (s.rayAngle idx) <
        s.vertical_intersection (s.rayAngle idx) →
      (s.get_view)[(idx : ℕ)]? =
        some (f32ToI32 (WALL_HEIGHT /
            (s.vertical_intersection (s.rayAngle idx) *
              cosf (s.rayAngle idx - s.player_angle))), true)) ∧
    ((s.get_view)[(idx : ℕ)]?.map Prod.snd = some false ↔
      s.horizontal_intersection (s.rayAngle idx) <
        s.vertical_intersection (s.rayAngle idx)) := by
  rw [get_view_getElem?]
  constructor
  · intro hnlt
    simp only [State.wallSample]
    rw [if_neg hnlt]
  · simp only [State.wallSample, Option.map_some']
    by_cases hlt : s.horizontal_intersection (s.rayAngle idx) <
        s.vertical_intersection (s.rayAngle idx)
    · rw [if_pos hlt]
      simpa using hlt
    · rw [if_neg hlt]
      simpa using hlt

lemma tanf_neg_frac_pi_2 : tanf (-FRAC_PI_2) = 0 := by
  rw [tanf, cosf_neg_frac_pi_2, div_zero]

lemma ceil_as_floor (a : ℚ) : (⌈a⌉ : ℤ) = -⌊-a⌋ := by
  rw [Int.floor_neg, neg_neg]

lemma hFacingUp_neg_frac_pi_2 : hFacingUp (-FRAC_PI_2) = true := by
  norm_num [hFacingUp, remf, truncQ, floorf, fabsf, FRAC_PI_2, PI, bne_iff_ne,
    ceil_as_floor]

lemma vFacingRight_neg_frac_pi_2 : vFacingRight (-FRAC_PI_2) = true := by
  norm_num [vFacingRight, remf, truncQ, floorf, fabsf, FRAC_PI_2, PI, bne_iff_ne,
    ceil_as_floor]

lemma tieState_hFirst : tieState.hFirst (-FRAC_PI_2) = (0, 1/2) := by
  simp [State.hFirst, hFacingUp_neg_frac_pi_2, tanf_neg_frac_pi_2, ceilf, tieState]
  norm_num [ceil_as_floor]

lemma tieState_hDelta : hDelta (-FRAC_PI_2) = (0, 1) := by
  simp [hDelta, hFacingUp_neg_frac_pi_2, tanf_neg_frac_pi_2]

lemma tieState_hWall0 : tieState.hWallAt (-FRAC_PI_2) (0, 1/2) = true := by
  simp only [State.hWallAt, hFacingUp_neg_frac_pi_2, if_pos, tieState]
  norm_num [point_in_wall, f32ToUsize, MAP, Int.toNat_ofNat]

lemma tieState_hDist : tieState.horizontal_intersection (-FRAC_PI_2) = 1/2 := by
  simp only [State.horizontal_intersection]
  rw [tieState_hFirst, show (256 : ℕ) = 255 + 1 from rfl, marchLoop, if_pos tieState_hWall0]
  simp only [distance, sqrtf]
  rw [show ((0 : ℚ) * 0 + (1/2 : ℚ) * (1/2)) = ((1/2 : ℚ) * (1/2)) by norm_num, Rat.sqrt_eq]
  norm_num

lemma tieState_vFirst : tieState.vFirst (-FRAC_PI_2) = (1/2, 0) := by
  simp [State.vFirst, vFacingRight_neg_frac_pi_2, tanf_neg_frac_pi_2, ceilf, tieState]
  norm_num [ceil_as_floor]

lemma tieState_vWall0 : tieState.vWallAt (-FRAC_PI_2) (1/2, 0) = true := by
  simp only [State.vWallAt, vFacingRight_neg_frac_pi_2, if_pos, tieState]
  norm_num [point_in_wall, f32ToUsize, MAP, Int.toNat_ofNat]
  decide

lemma tieState_vDist : tieState.vertical_intersection (-FRAC_PI_2) = 1/2 := by
  simp only [State.vertical_intersection]
  rw [tieState_vFirst, show (256 : ℕ) = 255 + 1 from rfl, marchLoop, if_pos tieState_vWall0]
  simp only [distance, sqrtf]
  rw [show ((1/2 : ℚ) * (1/2) + (0 : ℚ) * 0) = ((1/2 : ℚ) * (1/2)) by norm_num, Rat.sqrt_eq]
  norm_num

lemma tieState_rayAngle0 : tieState.rayAngle ((0 : Fin 160) : ℕ) = -FRAC_PI_2 := by
  simp [State.rayAngle, tieState]

theorem shadow_flag_vertical_wins_ties_witness :
    (¬ tieState.horizontal_intersection (tieState.rayAngle ((0 : Fin 160) : ℕ)) <
        tieState.vertical_intersection (tieState.rayAngle ((0 : Fin 160) : ℕ))) ∧
      (tieState.get_view)[((0 : Fin 160) : ℕ)]? =
        some (f32ToI32 (WALL_HEIGHT /
            (tieState.vertical_intersection (tieState.rayAngle ((0 : Fin 160) : ℕ)) *
              cosf (tieState.rayAngle ((0 : Fin 160) : ℕ) - tieState.player_angle))),
          true) := by
  have hnlt : ¬ tieState.horizontal_intersection (tieState.rayAngle ((0 : Fin 160) : ℕ)) <
      tieState.vertical_intersection (tieState.rayAngle ((0 : Fin 160) : ℕ)) := by
    rw [tieState_rayAngle0, tieState_hDist, tieState_vDist]
    exact lt_irrefl _
  exact ⟨hnlt, (shadow_flag_vertical_wins_ties tieState 0).1 hnlt⟩

lemma stepPoint_zero (start d : ℚ × ℚ) : stepPoint start d 0 = start := by
  simp [stepPoint]

lemma stepPoint_shift (start d : ℚ × ℚ) (k : ℕ) :
    stepPoint (start.1 + d.1, start.2 + d.2) d k = stepPoint start d (k + 1) := by
  simp only [stepPoint, Prod.mk.injEq]
  constructor <;> push_cast <;> ring

lemma marchLoop_spec (wall : ℚ × ℚ → Bool) (d : ℚ × ℚ) :
    ∀ (fuel : ℕ) (start : ℚ × ℚ),
      ∃ n, n ≤ fuel ∧ marchLoop wall d fuel start = stepPoint start d n ∧
        (∀ k, k < n → wall (stepPoint start d k) = false) ∧
        (n = fuel ∨ wall (stepPoint start d n) = true) := by
  intro fuel
  induction fuel with
  | zero =>
    intro start
    exact ⟨0, Nat.le_refl 0, by rw [marchLoop, stepPoint_zero],
      fun k hk => absurd hk (Nat.not_lt_zero k), Or.inl rfl⟩
  | succ m ih =>
    intro start
    by_cases hw : wall start = true
    · refine ⟨0, Nat.zero_le _, ?_, fun k hk => absurd hk (Nat.not_lt_zero k), Or.inr ?_⟩
      · rw [marchLoop, if_pos hw, stepPoint_zero]
      · rw [stepPoint_zero]
        exact hw
    · have hwf : wall start = false := by
        revert hw
        cases wall start <;> simp
      obtain ⟨n, hn, heq, hall, hend⟩ := ih (start.1 + d.1, start.2 + d.2)
      refine ⟨n + 1, Nat.succ_le_succ hn, ?_, ?_, ?_⟩
      · rw [marchLoop, if_neg hw, heq, stepPoint_shift]
      · intro k hk
        cases k with
        | zero =>
          rw [stepPoint_zero]
          exact hwf
        | succ j =>
          have hj := hall j (Nat.lt_of_succ_lt_succ hk)
          rwa [stepPoint_shift] at hj
      · rcases hend with hend | hend
        · exact Or.inl (by omega)
        · right
          rwa [stepPoint_shift] at hend

/-- Claim C7: each cast performs at most 256 marching steps (so at most 256
wall tests), stops at the first wall hit, and whether it hits a wall or
exhausts the budget it returns the Euclidean distance from the player to
the final relative offset reached. -/
theorem intersections_march_at_most_256 (s : State) (angle : ℚ) :
    (∃ n, n ≤ 256 ∧
      s.horizontal_intersection angle =
        distance (stepPoint (s.hFirst angle) (hDelta angle) n).1
          (stepPoint (s.hFirst angle) (hDelta angle) n).2 ∧
      (∀ k, k < n → s.hWallAt angle (stepPoint (s.hFirst angle) (hDelta angle) k) = false) ∧
      (n = 256 ∨ s.hWallAt angle (stepPoint (s.hFirst angle) (hDelta angle) n) = true)) ∧
    (∃ n, n ≤ 256 ∧
      s.vertical_intersection angle =
        distance (stepPoint (s.vFirst angle) (vDelta angle) n).1
          (stepPoint (s.vFirst angle) (vDelta angle) n).2 ∧
      (∀ k, k < n → s.vWallAt angle (stepPoint (s.vFirst angle) (vDelta angle) k) = false) ∧
      (n = 256 ∨ s.vWallAt angle (stepPoint (s.vFirst angle) (vDelta angle) n) = true)) := by
  constructor
  · obtain ⟨n, hn, heq, hall, hend⟩ :=
      marchLoop_spec (s.hWallAt angle) (hDelta angle) 256 (s.hFirst angle)
    refine ⟨n, hn, ?_, hall, hend⟩
    simp only [State.horizontal_intersection]
    rw [heq]
  · obtain ⟨n, hn, heq, hall, hend⟩ :=
      marchLoop_spec (s.vWallAt angle) (vDelta angle) 256 (s.vFirst angle)
    refine ⟨n, hn, ?_, hall, hend⟩
    simp only [State.vertical_intersection]
    rw [heq]
